import Mathlib

/- Shallow embedding of src/va_claim_help_scraper1.py (keyword-driven Reddit
   collector with dedup, retry/backoff and incremental persistence).

   Modelling conventions:
   * Reddit item handles are records of exactly the fields the script reads.
   * Timestamps (`created_utc`) are integers (seconds since the epoch).
   * Python sets of id strings are lists used only through membership.
   * The file system is abstracted per file: a `JsonFile` value is either
     absent, unparseable JSON, a JSON list, or some other valid JSON value.
   * Remote calls are supplied by a `Remote` oracle: for each keyword and
     attempt number the oracle gives the outcome of `sub.search` (either the
     full result page, or an exception class together with the items the lazy
     listing yielded before raising); the hot listing is given per keyword.
-/

/-- One element of a per-keyword bucket: the dict built at lines 300-310
    (post variant) or 342-353 (comment variant) of the source. A key that a
    variant does not set is `none`. -/
structure Record where
  rtype : String
  id : Option String
  post_id : Option String
  subreddit : String
  title : String
  body : String
  url : String
  score : Int
  created_utc : Option Int
  matched_keyword : String
deriving DecidableEq

/-- A post handle yielded by `sub.search` (the script reads `post.id`
    directly, so the id is always present). -/
structure RPost where
  id : String
  subreddit : String
  title : String
  selftext : String
  permalink : String
  score : Int
  created_utc : Option Int
deriving DecidableEq

/-- A comment handle: `id` models `getattr(c, "id", None)`. -/
structure RComment where
  id : Option String
  body : String
  permalink : String
  score : Int
  created_utc : Option Int
deriving DecidableEq

/-- A hot-listing post handle with its flattened comment forest
    (`post.comments.list()` after `replace_more(limit=0)`). -/
structure HotPost where
  id : Option String
  subreddit : String
  title : String
  comments : List RComment
deriving DecidableEq

/-- Abstract state of one JSON file on disk, as seen by the loaders. -/
inductive JsonFile (α : Type) where
  | absent
  | corrupt
  | list (items : List α)
  | nonList
deriving DecidableEq

/-- Source lines 93-104: missing file, unparseable file, or a parsed value
    that is not a list all give the empty list. -/
def load_json_list {α : Type} : JsonFile α → List α
  | .list items => items
  | _ => []

/-- Source lines 249-258: loading `seen_ids.json`. A corrupt file is caught
    (warn, keep the empty set); a parsed non-list value is ignored. -/
def seenFromFile : JsonFile String → List String
  | .list l => l
  | _ => []

/-- Source lines 113-120: `append_csv_row`. The summary file is modelled as
    `none` when absent and `some rows` otherwise; the header is written when
    the file is absent or empty. -/
def append_csv_row (header row : List String) (file : Option (List (List String))) :
    Option (List (List String)) :=
  match file with
  | none => some [header, row]
  | some [] => some [header, row]
  | some rs => some (rs ++ [row])

/-- Characters kept by the regex class `[a-zA-Z0-9._-]` at line 89. -/
def allowedChar (c : Char) : Bool :=
  (97 ≤ c.toNat && c.toNat ≤ 122) || (65 ≤ c.toNat && c.toNat ≤ 90) ||
    (48 ≤ c.toNat && c.toNat ≤ 57) || c == '.' || c == '_' || c == '-'

/-- Run-collapsing substitution `re.sub(r"[^a-zA-Z0-9._-]+", "_", s)`:
    the flag records whether we are inside a run of disallowed characters
    whose single replacement underscore was already emitted. -/
def collapseAux : Bool → List Char → List Char
  | _, [] => []
  | inRun, c :: rest =>
    if allowedChar c then c :: collapseAux false rest
    else if inRun then collapseAux true rest
    else '_' :: collapseAux true rest

/-- Each maximal run of disallowed characters becomes one underscore. -/
def collapseRuns (l : List Char) : List Char := collapseAux false l

/-- ASCII whitespace stripped by Python `str.strip()`. -/
def isPySpace (c : Char) : Bool :=
  c == ' ' || c == '\t' || c == '\n' || c == '\r' || c.toNat == 11 || c.toNat == 12

/-- Python `name.strip()` (both ends). -/
def pyStrip (s : String) : String :=
  String.mk (((s.toList.dropWhile isPySpace).reverse.dropWhile isPySpace).reverse)

/-- Source lines 87-90: `sanitize_filename`. -/
def sanitize_filename (name : String) (maxlen : Nat) : String :=
  let safe := String.mk (collapseRuns (pyStrip name).toList)
  if safe = "" then "untitled" else String.mk (safe.toList.take maxlen)

/-- Sanitizer as the spec's words describe it (no initial whitespace strip):
    used only to compare the claimed behaviour with the source behaviour. -/
def claimed_sanitize (name : String) (maxlen : Nat) : String :=
  let safe := String.mk (collapseRuns name.toList)
  if safe = "" then "untitled" else String.mk (safe.toList.take maxlen)

/-- Zero-pad a month or day number to two digits (strftime %m / %d). -/
def pad2 (n : Nat) : String := if n < 10 then "0" ++ toString n else toString n

/-- Proleptic Gregorian calendar date of a day count since 1970-01-01
    (the civil-from-days algorithm; all divisions are floor divisions). -/
def civilFromDays (z : Int) : Int × Nat × Nat :=
  let zd := z + 719468
  let era := zd.fdiv 146097
  let doe := (zd - era * 146097).toNat
  let yoe := (doe - doe / 1460 + doe / 36524 - doe / 146096) / 365
  let doy := doe - (365 * yoe + yoe / 4 - yoe / 100)
  let mp := (5 * doy + 2) / 153
  let d := doy - (153 * mp + 2) / 5 + 1
  let m := if mp < 10 then mp + 3 else mp - 9
  ((yoe : Int) + era * 400 + (if m ≤ 2 then 1 else 0), m, d)

/-- `datetime.fromtimestamp(ts, tz=timezone.utc).strftime("%Y-%m-%d")` for a
    timestamp inside datetime's representable range. -/
def utcDateString (ts : Int) : String :=
  match civilFromDays (ts.fdiv 86400) with
  | (y, m, d) => toString y ++ "-" ++ pad2 m ++ "-" ++ pad2 d

/-- Smallest timestamp `datetime.fromtimestamp` accepts (0001-01-01T00:00Z). -/
def tsMinValid : Int := -62135596800

/-- First timestamp beyond the range (year 10000); from here the conversion
    raises and the `except` branch returns the marker instead. -/
def tsMaxValid : Int := 253402300800

/-- Source lines 123-129: `now_utc_date`. `if not ts` catches `None` and the
    falsy timestamp `0`; the `except` branch catches the out-of-range error
    raised by `datetime.fromtimestamp` outside years 1..9999. -/
def now_utc_date : Option Int → String
  | none => "N/A"
  | some ts =>
    if ts = 0 then "N/A"
    else if ts < tsMinValid ∨ tsMaxValid ≤ ts then "N/A"
    else utcDateString ts

/-- Minimum of a list of timestamps (`none` on the empty list). -/
def listMin? : List Int → Option Int
  | [] => none
  | t :: ts =>
    some (match listMin? ts with
      | none => t
      | some m => min t m)

/-- Maximum of a list of timestamps (`none` on the empty list). -/
def listMax? : List Int → Option Int
  | [] => none
  | t :: ts =>
    some (match listMax? ts with
      | none => t
      | some m => max t m)

/-- Python `set.add` on the seen-id set (modelled as a duplicate-free list). -/
def addSeen (x : String) (s : List String) : List String :=
  if x ∈ s then s else x :: s

/-- Whether the first list is a prefix of the second. -/
def listIsPrefix : List Char → List Char → Bool
  | [], _ => true
  | _ :: _, [] => false
  | a :: as, b :: bs => a == b && listIsPrefix as bs

/-- Whether the first list occurs as a contiguous sublist of the second. -/
def listContainsSub (needle : List Char) : List Char → Bool
  | [] => needle.isEmpty
  | c :: rest => listIsPrefix needle (c :: rest) || listContainsSub needle rest

/-- Python `kw.lower() in body.lower()` (case-insensitive substring test). -/
def pyIn (needle hay : String) : Bool :=
  listContainsSub (needle.toList.map Char.toLower) (hay.toList.map Char.toLower)

/-- Mutable locals of one keyword iteration of the collection loop
    (bucket, the shared seen-id set, counters and date trackers). -/
structure KwRun where
  bucket : List Record
  seen : List String
  postsFound : Nat
  commentsFound : Nat
  duplicates : Nat
  oldestTs : Option Int
  newestTs : Option Int
deriving DecidableEq

/-- Source lines 283-288: the nested `update_dates` helper. -/
def update_dates (ts : Option Int) (st : KwRun) : KwRun :=
  match ts with
  | none => st
  | some t =>
    { st with
      oldestTs := some (match st.oldestTs with | none => t | some o => min o t),
      newestTs := some (match st.newestTs with | none => t | some o => max o t) }

/-- Record built for a search-result post (source lines 300-310). -/
def makePostRecord (kw : String) (p : RPost) : Record :=
  { rtype := "post", id := some p.id, post_id := none, subreddit := p.subreddit,
    title := p.title, body := p.selftext, url := "https://reddit.com" ++ p.permalink,
    score := p.score, created_utc := p.created_utc, matched_keyword := kw }

/-- Record built for a matching comment (source lines 342-353). -/
def makeCommentRecord (kw : String) (hp : HotPost) (c : RComment) (cid : String) : Record :=
  { rtype := "comment", id := some cid, post_id := hp.id, subreddit := hp.subreddit,
    title := hp.title, body := c.body, url := "https://reddit.com" ++ c.permalink,
    score := c.score, created_utc := c.created_utc, matched_keyword := kw }

/-- Source lines 296-314: handle one search-result post. The duplicate test
    consults both the seen-id set and the ids of the loaded bucket `ex`. -/
def processPost (kw : String) (ex : List (Option String)) (st : KwRun) (p : RPost) : KwRun :=
  if p.id ∈ st.seen ∨ some p.id ∈ ex then
    { st with duplicates := st.duplicates + 1 }
  else
    update_dates p.created_utc
      { st with
        bucket := st.bucket ++ [makePostRecord kw p],
        postsFound := st.postsFound + 1,
        seen := addSeen p.id st.seen }

/-- Source lines 335-357: handle one comment of a hot post. The duplicate
    test consults only the seen-id set (`if not cid or (cid in seen_ids)`). -/
def processComment (kw : String) (hp : HotPost) (st : KwRun) (c : RComment) : KwRun :=
  if c.body ≠ "" ∧ pyIn kw c.body = true then
    match c.id with
    | none => st
    | some cid =>
      if cid = "" ∨ cid ∈ st.seen then st
      else
        update_dates c.created_utc
          { st with
            bucket := st.bucket ++ [makeCommentRecord kw hp c cid],
            commentsFound := st.commentsFound + 1,
            seen := addSeen cid st.seen }
  else st

/-- Source lines 332-357: scan all comments of one hot post. -/
def processHotPost (kw : String) (st : KwRun) (hp : HotPost) : KwRun :=
  hp.comments.foldl (processComment kw hp) st

/-- Outcome of one `sub.search(...)` call: either the whole lazy listing is
    consumed, or an exception of the given class is raised after the listed
    prefix of items was already yielded and processed. -/
inductive FetchResult where
  | ok (posts : List RPost)
  | rateLimited (partialPosts : List RPost)
  | serverError (partialPosts : List RPost)
  | otherError (partialPosts : List RPost)
deriving DecidableEq

/-- How the retry loop around the post search ended. -/
inductive SearchStatus where
  | success
  | exhausted
  | fatalError
deriving DecidableEq

/-- Result of the retry loop: final locals, number of attempts actually
    made, backoff sleeps performed (in order), and how the loop ended. -/
structure SearchResult where
  st : KwRun
  attempts : Nat
  sleeps : List Nat
  status : SearchStatus
deriving DecidableEq

/-- The attempt numbers `range(1, max_retries + 1)` starting at `a`. -/
def attemptNums : Nat → Nat → List Nat
  | _, 0 => []
  | a, n + 1 => a :: attemptNums (a + 1) n

/-- Source lines 294-326: the retry/backoff controller around the post
    search. On success the loop breaks; on a rate limit or server error it
    sleeps `sleep_s * attempt` and retries; any other exception breaks
    immediately with no sleep. -/
def searchRetry (kw : String) (ex : List (Option String)) (sleep_s : Nat)
    (fetch : Nat → FetchResult) : List Nat → KwRun → SearchResult
  | [], st => ⟨st, 0, [], .exhausted⟩
  | a :: rest, st =>
    match fetch a with
    | .ok ps => ⟨ps.foldl (processPost kw ex) st, 1, [], .success⟩
    | .rateLimited ps =>
      let r := searchRetry kw ex sleep_s fetch rest (ps.foldl (processPost kw ex) st)
      ⟨r.st, r.attempts + 1, sleep_s * a :: r.sleeps, r.status⟩
    | .serverError ps =>
      let r := searchRetry kw ex sleep_s fetch rest (ps.foldl (processPost kw ex) st)
      ⟨r.st, r.attempts + 1, sleep_s * a :: r.sleeps, r.status⟩
    | .otherError ps => ⟨ps.foldl (processPost kw ex) st, 1, [], .fatalError⟩

/-- The remote source: search outcome per keyword and attempt number, and
    the hot listing scanned for comments per keyword iteration. -/
structure Remote where
  fetch : String → Nat → FetchResult
  hot : String → List HotPost

/-- The tunables of `search_posts_and_comments` that affect observable
    behaviour. -/
structure Config where
  resultsDir : String
  sleep_s : Nat
  max_retries : Nat
  includeComments : Bool
deriving DecidableEq

/-- One row of `summary_log.csv` (source lines 383-396). -/
structure SummaryRow where
  keyword : String
  posts_found : Nat
  comments_found : Nat
  oldest_date : String
  newest_date : String
  outfile : String
  duplicates : Nat
deriving DecidableEq

/-- Everything one keyword iteration produces. -/
structure KwResult where
  bucket : List Record
  seen : List String
  row : SummaryRow
  attempts : Nat
  sleeps : List Nat
  status : SearchStatus
deriving DecidableEq

/-- Fresh per-keyword locals (source lines 277-281). -/
def initState (bucket : List Record) (seen : List String) : KwRun :=
  ⟨bucket, seen, 0, 0, 0, none, none⟩

/-- Path of the keyword's JSON bucket file (source lines 268-269). -/
def kwFileName (cfg : Config) (kw : String) : String :=
  cfg.resultsDir ++ "/" ++ sanitize_filename kw 100 ++ ".json"

/-- One iteration of the collection loop (source lines 267-396): load the
    bucket, compute its id set, run the retry-wrapped post search, then the
    optional comment scan, and produce the summary row. -/
def runKeyword (remote : Remote) (cfg : Config) (kw : String)
    (file : JsonFile Record) (seen : List String) : KwResult :=
  let b0 := load_json_list file
  let ex := b0.map Record.id
  let r := searchRetry kw ex cfg.sleep_s (remote.fetch kw)
    (attemptNums 1 cfg.max_retries) (initState b0 seen)
  let st2 := if cfg.includeComments then (remote.hot kw).foldl (processHotPost kw) r.st
    else r.st
  { bucket := st2.bucket, seen := st2.seen,
    row :=
      { keyword := kw, posts_found := st2.postsFound, comments_found := st2.commentsFound,
        oldest_date := now_utc_date st2.oldestTs, newest_date := now_utc_date st2.newestTs,
        outfile := kwFileName cfg kw, duplicates := st2.duplicates },
    attempts := r.attempts, sleeps := r.sleeps, status := r.status }

/-- Header of `summary_log.csv` (source lines 262-265). -/
def summaryHeader : List String :=
  ["keyword", "posts_found", "comments_found", "oldest_date", "newest_date",
    "outfile_json", "duplicates_skipped"]

/-- Serialize a summary row for `append_csv_row` (source lines 384-396). -/
def rowCells (r : SummaryRow) : List String :=
  [r.keyword, toString r.posts_found, toString r.comments_found, r.oldest_date,
    r.newest_date, r.outfile, toString r.duplicates]

/-- Observable state threaded through the collection loop: the per-keyword
    bucket files (keyed by their path), the summary CSV, the seen-id set,
    and the list of per-keyword results in order. -/
structure RunState where
  fs : String → JsonFile Record
  summary : Option (List (List String))
  seen : List String
  results : List KwResult

/-- Source lines 267-409: the collection loop over the keyword list. Each
    iteration rewrites the keyword's bucket file in full and appends one
    summary row; the seen-id set is carried to the next iteration. -/
def search_posts_and_comments (remote : Remote) (cfg : Config) :
    List String → RunState → RunState
  | [], rs => rs
  | kw :: rest, rs =>
    let key := kwFileName cfg kw
    let res := runKeyword remote cfg kw (rs.fs key) rs.seen
    search_posts_and_comments remote cfg rest
      { fs := fun n => if n = key then JsonFile.list res.bucket else rs.fs n,
        summary := append_csv_row summaryHeader (rowCells res.row) rs.summary,
        seen := res.seen,
        results := rs.results ++ [res] }

/-! ### The per-keyword run invariant

`GoodRun b0 seen0 ex δ st` relates the locals `st` of one keyword iteration
to the loaded bucket `b0`, the seen-id set `seen0` at the start of the
iteration, and the id set `ex` of the loaded bucket: exactly the records `δ`
were appended so far, every appended record has a non-`none` id that was
entered into the seen set, appended ids are pairwise distinct and fresh
relative to `seen0`, appended posts are additionally fresh relative to `ex`,
and the date trackers are the min/max over the appended timestamps. -/

structure GoodRun (b0 : List Record) (seen0 : List String) (ex : List (Option String))
    (δ : List Record) (st : KwRun) : Prop where
  bucket_eq : st.bucket = b0 ++ δ
  seen_mono : ∀ x ∈ seen0, x ∈ st.seen
  new_in_seen : ∀ r ∈ δ, ∃ s, r.id = some s ∧ s ∈ st.seen
  new_nodup : (δ.map Record.id).Nodup
  new_fresh : ∀ r ∈ δ, ∀ s, r.id = some s → s ∉ seen0
  post_fresh : ∀ r ∈ δ, r.rtype = "post" → r.id ∉ ex
  oldest_eq : st.oldestTs = listMin? (δ.filterMap Record.created_utc)
  newest_eq : st.newestTs = listMax? (δ.filterMap Record.created_utc)

/-- The per-keyword locals after the search phase and the optional comment
    scan: exactly the `st2` from which `runKeyword` builds its result. -/
def kwStateOf (remote : Remote) (cfg : Config) (kw : String)
    (file : JsonFile Record) (seen : List String) : KwRun :=
  let b0 := load_json_list file
  let ex := b0.map Record.id
  let r := searchRetry kw ex cfg.sleep_s (remote.fetch kw)
    (attemptNums 1 cfg.max_retries) (initState b0 seen)
  if cfg.includeComments then (remote.hot kw).foldl (processHotPost kw) r.st else r.st

/-- A search-result post that the duplicate test of line 297 will skip. -/
def PostCovered (seen : List String) (ids : List (Option String)) (p : RPost) : Prop :=
  p.id ∈ seen ∨ some p.id ∈ ids

/-- A comment that the comment scan will not append: if its body matches the
    keyword, its id is falsy or already seen. -/
def CommentCovered (kw : String) (seen : List String) (c : RComment) : Prop :=
  c.body ≠ "" → pyIn kw c.body = true → ∀ cid, c.id = some cid → (cid = "" ∨ cid ∈ seen)

/-! ### Basic lemmas about the helpers -/

lemma mem_addSeen {x y : String} {s : List String} : y ∈ addSeen x s ↔ y = x ∨ y ∈ s := by
  unfold addSeen
  by_cases h : x ∈ s
  · rw [if_pos h]
    constructor
    · exact Or.inr
    · rintro (rfl | hy)
      · exact h
      · exact hy
  · rw [if_neg h]
    simp [List.mem_cons]

lemma addSeen_subset {x : String} {s : List String} : ∀ y ∈ s, y ∈ addSeen x s :=
  fun _ hy => mem_addSeen.mpr (Or.inr hy)

lemma mem_addSeen_self {x : String} {s : List String} : x ∈ addSeen x s :=
  mem_addSeen.mpr (Or.inl rfl)

lemma update_dates_bucket (ts : Option Int) (st : KwRun) :
    (update_dates ts st).bucket = st.bucket := by cases ts <;> rfl

lemma update_dates_seen (ts : Option Int) (st : KwRun) :
    (update_dates ts st).seen = st.seen := by cases ts <;> rfl

lemma update_dates_postsFound (ts : Option Int) (st : KwRun) :
    (update_dates ts st).postsFound = st.postsFound := by cases ts <;> rfl

lemma update_dates_commentsFound (ts : Option Int) (st : KwRun) :
    (update_dates ts st).commentsFound = st.commentsFound := by cases ts <;> rfl

lemma update_dates_duplicates (ts : Option Int) (st : KwRun) :
    (update_dates ts st).duplicates = st.duplicates := by cases ts <;> rfl

lemma update_dates_oldest_congr (ts : Option Int) (st1 st2 : KwRun)
    (h : st1.oldestTs = st2.oldestTs) :
    (update_dates ts st1).oldestTs = (update_dates ts st2).oldestTs := by
  cases ts <;> simp [update_dates, h]

lemma update_dates_newest_congr (ts : Option Int) (st1 st2 : KwRun)
    (h : st1.newestTs = st2.newestTs) :
    (update_dates ts st1).newestTs = (update_dates ts st2).newestTs := by
  cases ts <;> simp [update_dates, h]

lemma listMin?_cons (a : Int) (l : List Int) :
    listMin? (a :: l) = some (match listMin? l with | none => a | some m => min a m) := rfl

lemma listMax?_cons (a : Int) (l : List Int) :
    listMax? (a :: l) = some (match listMax? l with | none => a | some m => max a m) := rfl

lemma listMin?_append_singleton (l : List Int) (t : Int) :
    listMin? (l ++ [t]) =
      some (match listMin? l with | none => t | some m => min m t) := by
  induction l with
  | nil => rfl
  | cons a l ih =>
    rw [List.cons_append, listMin?_cons, listMin?_cons, ih]
    cases h : listMin? l with
    | none => rfl
    | some m => simp [min_assoc]

lemma listMax?_append_singleton (l : List Int) (t : Int) :
    listMax? (l ++ [t]) =
      some (match listMax? l with | none => t | some m => max m t) := by
  induction l with
  | nil => rfl
  | cons a l ih =>
    rw [List.cons_append, listMax?_cons, listMax?_cons, ih]
    cases h : listMax? l with
    | none => rfl
    | some m => simp [max_assoc]

lemma nodup_append_singleton {α : Type} {l : List α} {a : α} (ha : a ∉ l) (hl : l.Nodup) :
    (l ++ [a]).Nodup := by
  induction l with
  | nil => simp
  | cons b l ih =>
    simp only [List.mem_cons, not_or] at ha
    simp only [List.cons_append, List.nodup_cons] at hl ⊢
    refine ⟨?_, ih ha.2 hl.2⟩
    simp only [List.mem_append, List.mem_singleton]
    rintro (h | h)
    · exact hl.1 h
    · exact ha.1 h.symm

lemma goodRun_init (b0 : List Record) (seen0 : List String) (ex : List (Option String)) :
    GoodRun b0 seen0 ex [] (initState b0 seen0) := by
  refine ⟨(List.append_nil _).symm, fun x h => h, ?_, ?_, ?_, ?_, rfl, rfl⟩ <;> simp

lemma goodRun_congr {b0 : List Record} {seen0 : List String} {ex : List (Option String)}
    {δ : List Record} {st : KwRun} (h : GoodRun b0 seen0 ex δ st) (st' : KwRun)
    (hb : st'.bucket = st.bucket) (hseen : st'.seen = st.seen)
    (hold : st'.oldestTs = st.oldestTs) (hnew : st'.newestTs = st.newestTs) :
    GoodRun b0 seen0 ex δ st' := by
  refine ⟨hb.trans h.bucket_eq, ?_, ?_, h.new_nodup, h.new_fresh, h.post_fresh,
    hold.trans h.oldest_eq, hnew.trans h.newest_eq⟩
  · intro x hx
    rw [hseen]
    exact h.seen_mono x hx
  · intro r hr
    obtain ⟨s, hs1, hs2⟩ := h.new_in_seen r hr
    exact ⟨s, hs1, hseen ▸ hs2⟩

lemma goodRun_append {b0 : List Record} {seen0 : List String} {ex : List (Option String)}
    {δ : List Record} {st : KwRun} (st' : KwRun) (r : Record) (s : String)
    (h : GoodRun b0 seen0 ex δ st)
    (hid : r.id = some s) (hs : s ∉ st.seen)
    (hex : r.rtype = "post" → r.id ∉ ex)
    (hb : st'.bucket = st.bucket ++ [r])
    (hseen : st'.seen = addSeen s st.seen)
    (hold : st'.oldestTs = (update_dates r.created_utc st).oldestTs)
    (hnew : st'.newestTs = (update_dates r.created_utc st).newestTs) :
    GoodRun b0 seen0 ex (δ ++ [r]) st' := by
  refine ⟨?_, ?_, ?_, ?_, ?_, ?_, ?_, ?_⟩
  · rw [hb, h.bucket_eq, List.append_assoc]
  · intro x hx
    rw [hseen]
    exact addSeen_subset x (h.seen_mono x hx)
  · intro r' hr'
    rcases List.mem_append.mp hr' with hr' | hr'
    · obtain ⟨s', hs1, hs2⟩ := h.new_in_seen r' hr'
      exact ⟨s', hs1, hseen ▸ addSeen_subset s' hs2⟩
    · rw [List.mem_singleton.mp hr']
      exact ⟨s, hid, hseen ▸ mem_addSeen_self⟩
  · rw [List.map_append]
    show (δ.map Record.id ++ [r.id]).Nodup
    refine nodup_append_singleton ?_ h.new_nodup
    intro hmem
    obtain ⟨r', hr', hid'⟩ := List.mem_map.mp hmem
    obtain ⟨s', hs1, hs2⟩ := h.new_in_seen r' hr'
    rw [hid] at hid'
    rw [hid'] at hs1
    obtain rfl := Option.some_injective _ hs1
    exact hs hs2
  · intro r' hr' s' hs'
    rcases List.mem_append.mp hr' with hr' | hr'
    · exact h.new_fresh r' hr' s' hs'
    · rw [List.mem_singleton.mp hr'] at hs'
      rw [hid] at hs'
      obtain rfl := Option.some_injective _ hs'
      intro hmem
      exact hs (h.seen_mono _ hmem)
  · intro r' hr'
    rcases List.mem_append.mp hr' with hr' | hr'
    · exact h.post_fresh r' hr'
    · rw [List.mem_singleton.mp hr']
      exact hex
  · rw [hold, List.filterMap_append]
    cases hts : r.created_utc with
    | none =>
      simp only [hts, update_dates, List.filterMap_cons, List.filterMap_nil, List.append_nil]
      exact h.oldest_eq
    | some t =>
      simp only [hts, update_dates, List.filterMap_cons, List.filterMap_nil]
      rw [listMin?_append_singleton, h.oldest_eq]
  · rw [hnew, List.filterMap_append]
    cases hts : r.created_utc with
    | none =>
      simp only [hts, update_dates, List.filterMap_cons, List.filterMap_nil, List.append_nil]
      exact h.newest_eq
    | some t =>
      simp only [hts, update_dates, List.filterMap_cons, List.filterMap_nil]
      rw [listMax?_append_singleton, h.newest_eq]

lemma goodRun_processPost (kw : String) (ex : List (Option String)) (p : RPost)
    {b0 : List Record} {seen0 : List String} {δ : List Record} {st : KwRun}
    (h : GoodRun b0 seen0 ex δ st) :
    ∃ δ', GoodRun b0 seen0 ex δ' (processPost kw ex st p) := by
  by_cases hc : p.id ∈ st.seen ∨ some p.id ∈ ex
  · refine ⟨δ, ?_⟩
    simp only [processPost, if_pos hc]
    exact goodRun_congr h _ rfl rfl rfl rfl
  · push_neg at hc
    refine ⟨δ ++ [makePostRecord kw p], ?_⟩
    simp only [processPost, if_neg (not_or.mpr ⟨hc.1, hc.2⟩)]
    refine goodRun_append _ (makePostRecord kw p) p.id h rfl hc.1 ?_ ?_ ?_ ?_ ?_
    · intro _
      exact hc.2
    · rw [update_dates_bucket]
    · rw [update_dates_seen]
    · exact update_dates_oldest_congr _ _ _ rfl
    · exact update_dates_newest_congr _ _ _ rfl

lemma goodRun_foldPosts (kw : String) (ex : List (Option String))
    {b0 : List Record} {seen0 : List String} (ps : List RPost) :
    ∀ {δ : List Record} {st : KwRun}, GoodRun b0 seen0 ex δ st →
      ∃ δ', GoodRun b0 seen0 ex δ' (ps.foldl (processPost kw ex) st) := by
  induction ps with
  | nil => exact fun h => ⟨_, h⟩
  | cons p ps ih =>
    intro δ st h
    rw [List.foldl_cons]
    obtain ⟨δ1, h1⟩ := goodRun_processPost kw ex p h
    exact ih h1

lemma goodRun_processComment (kw : String) (hp : HotPost) (c : RComment)
    {b0 : List Record} {seen0 : List String} {ex : List (Option String)}
    {δ : List Record} {st : KwRun} (h : GoodRun b0 seen0 ex δ st) :
    ∃ δ', GoodRun b0 seen0 ex δ' (processComment kw hp st c) := by
  by_cases hm : c.body ≠ "" ∧ pyIn kw c.body = true
  · cases hcid : c.id with
    | none =>
      refine ⟨δ, ?_⟩
      simp only [processComment, if_pos hm, hcid]
      exact h
    | some cid =>
      by_cases hskip : cid = "" ∨ cid ∈ st.seen
      · refine ⟨δ, ?_⟩
        simp only [processComment, if_pos hm, hcid, if_pos hskip]
        exact h
      · push_neg at hskip
        refine ⟨δ ++ [makeCommentRecord kw hp c cid], ?_⟩
        simp only [processComment, if_pos hm, hcid,
          if_neg (not_or.mpr ⟨hskip.1, hskip.2⟩)]
        refine goodRun_append _ (makeCommentRecord kw hp c cid) cid h rfl hskip.2 ?_ ?_ ?_ ?_ ?_
        · intro habs
          have hpc : "comment" = "post" := habs
          exact absurd hpc (by decide)
        · rw [update_dates_bucket]
        · rw [update_dates_seen]
        · exact update_dates_oldest_congr _ _ _ rfl
        · exact update_dates_newest_congr _ _ _ rfl
  · refine ⟨δ, ?_⟩
    simp only [processComment, if_neg hm]
    exact h

lemma goodRun_foldComments (kw : String) (hp : HotPost)
    {b0 : List Record} {seen0 : List String} {ex : List (Option String)} (cs : List RComment) :
    ∀ {δ : List Record} {st : KwRun}, GoodRun b0 seen0 ex δ st →
      ∃ δ', GoodRun b0 seen0 ex δ' (cs.foldl (processComment kw hp) st) := by
  induction cs with
  | nil => exact fun h => ⟨_, h⟩
  | cons c cs ih =>
    intro δ st h
    rw [List.foldl_cons]
    obtain ⟨δ1, h1⟩ := goodRun_processComment kw hp c h
    exact ih h1

lemma goodRun_foldHot (kw : String)
    {b0 : List Record} {seen0 : List String} {ex : List (Option String)} (hps : List HotPost) :
    ∀ {δ : List Record} {st : KwRun}, GoodRun b0 seen0 ex δ st →
      ∃ δ', GoodRun b0 seen0 ex δ' (hps.foldl (processHotPost kw) st) := by
  induction hps with
  | nil => exact fun h => ⟨_, h⟩
  | cons hp hps ih =>
    intro δ st h
    rw [List.foldl_cons]
    obtain ⟨δ1, h1⟩ := goodRun_foldComments kw hp hp.comments h
    exact ih h1

lemma goodRun_searchRetry (kw : String) (ex : List (Option String)) (sleep_s : Nat)
    (fetch : Nat → FetchResult) {b0 : List Record} {seen0 : List String} (as : List Nat) :
    ∀ {δ : List Record} {st : KwRun}, GoodRun b0 seen0 ex δ st →
      ∃ δ', GoodRun b0 seen0 ex δ' (searchRetry kw ex sleep_s fetch as st).st := by
  induction as with
  | nil => exact fun h => ⟨_, h⟩
  | cons a rest ih =>
    intro δ st h
    cases hf : fetch a with
    | ok ps =>
      simp only [searchRetry, hf]
      exact goodRun_foldPosts kw ex ps h
    | rateLimited ps =>
      simp only [searchRetry, hf]
      obtain ⟨δ1, h1⟩ := goodRun_foldPosts kw ex ps h
      exact ih h1
    | serverError ps =>
      simp only [searchRetry, hf]
      obtain ⟨δ1, h1⟩ := goodRun_foldPosts kw ex ps h
      exact ih h1
    | otherError ps =>
      simp only [searchRetry, hf]
      exact goodRun_foldPosts kw ex ps h

lemma runKeyword_bucket_eq (remote : Remote) (cfg : Config) (kw : String)
    (file : JsonFile Record) (seen : List String) :
    (runKeyword remote cfg kw file seen).bucket = (kwStateOf remote cfg kw file seen).bucket := rfl

lemma runKeyword_seen_eq (remote : Remote) (cfg : Config) (kw : String)
    (file : JsonFile Record) (seen : List String) :
    (runKeyword remote cfg kw file seen).seen = (kwStateOf remote cfg kw file seen).seen := rfl

lemma runKeyword_row_posts (remote : Remote) (cfg : Config) (kw : String)
    (file : JsonFile Record) (seen : List String) :
    (runKeyword remote cfg kw file seen).row.posts_found
      = (kwStateOf remote cfg kw file seen).postsFound := rfl

lemma runKeyword_row_comments (remote : Remote) (cfg : Config) (kw : String)
    (file : JsonFile Record) (seen : List String) :
    (runKeyword remote cfg kw file seen).row.comments_found
      = (kwStateOf remote cfg kw file seen).commentsFound := rfl

lemma runKeyword_row_oldest (remote : Remote) (cfg : Config) (kw : String)
    (file : JsonFile Record) (seen : List String) :
    (runKeyword remote cfg kw file seen).row.oldest_date
      = now_utc_date (kwStateOf remote cfg kw file seen).oldestTs := rfl

lemma runKeyword_row_newest (remote : Remote) (cfg : Config) (kw : String)
    (file : JsonFile Record) (seen : List String) :
    (runKeyword remote cfg kw file seen).row.newest_date
      = now_utc_date (kwStateOf remote cfg kw file seen).newestTs := rfl

lemma runKeyword_row_keyword (remote : Remote) (cfg : Config) (kw : String)
    (file : JsonFile Record) (seen : List String) :
    (runKeyword remote cfg kw file seen).row.keyword = kw := rfl

lemma runKeyword_row_duplicates (remote : Remote) (cfg : Config) (kw : String)
    (file : JsonFile Record) (seen : List String) :
    (runKeyword remote cfg kw file seen).row.duplicates
      = (kwStateOf remote cfg kw file seen).duplicates := rfl

lemma goodRun_kwStateOf (remote : Remote) (cfg : Config) (kw : String)
    (file : JsonFile Record) (seen : List String) :
    ∃ δ, GoodRun (load_json_list file) seen ((load_json_list file).map Record.id) δ
      (kwStateOf remote cfg kw file seen) := by
  obtain ⟨δ1, h1⟩ := goodRun_searchRetry kw ((load_json_list file).map Record.id)
    cfg.sleep_s (remote.fetch kw) (attemptNums 1 cfg.max_retries)
    (goodRun_init (load_json_list file) seen ((load_json_list file).map Record.id))
  unfold kwStateOf
  cases hic : cfg.includeComments with
  | false =>
    simp only [hic, if_neg Bool.false_ne_true]
    exact ⟨δ1, h1⟩
  | true =>
    simp only [hic, if_pos rfl]
    exact goodRun_foldHot kw (remote.hot kw) h1

/-! ### Behaviour of the retry controller -/

lemma attemptNums_length (n : Nat) : ∀ a, (attemptNums a n).length = n := by
  induction n with
  | zero => intro a; rfl
  | succ n ih => intro a; simp [attemptNums, ih]

lemma searchRetry_rateLimited_all (kw : String) (ex : List (Option String)) (sleep_s : Nat)
    (fetch : Nat → FetchResult) (h : ∀ a, fetch a = .rateLimited []) (as : List Nat) :
    ∀ st, searchRetry kw ex sleep_s fetch as st =
      ⟨st, as.length, as.map (fun a => sleep_s * a), .exhausted⟩ := by
  induction as with
  | nil => intro st; rfl
  | cons a rest ih =>
    intro st
    simp [searchRetry, h a, ih st]

lemma searchRetry_ok_head (kw : String) (ex : List (Option String)) (sleep_s : Nat)
    (fetch : Nat → FetchResult) (a : Nat) (rest : List Nat) (st : KwRun) (ps : List RPost)
    (h : fetch a = .ok ps) :
    searchRetry kw ex sleep_s fetch (a :: rest) st =
      ⟨ps.foldl (processPost kw ex) st, 1, [], .success⟩ := by
  simp [searchRetry, h]

lemma searchRetry_otherError_head (kw : String) (ex : List (Option String)) (sleep_s : Nat)
    (fetch : Nat → FetchResult) (a : Nat) (rest : List Nat) (st : KwRun) (ps : List RPost)
    (h : fetch a = .otherError ps) :
    searchRetry kw ex sleep_s fetch (a :: rest) st =
      ⟨ps.foldl (processPost kw ex) st, 1, [], .fatalError⟩ := by
  simp [searchRetry, h]

/-! ### Duplicate candidates are skipped without touching the state -/

lemma postCovered_mono {seen seen' : List String} {ids ids' : List (Option String)} {p : RPost}
    (hseen : ∀ x ∈ seen, x ∈ seen') (hids : ∀ x ∈ ids, x ∈ ids')
    (h : PostCovered seen ids p) : PostCovered seen' ids' p := by
  rcases h with h | h
  · exact Or.inl (hseen _ h)
  · exact Or.inr (hids _ h)

lemma commentCovered_mono {kw : String} {seen seen' : List String} {c : RComment}
    (hseen : ∀ x ∈ seen, x ∈ seen') (h : CommentCovered kw seen c) :
    CommentCovered kw seen' c := by
  intro hb hm cid hcid
  rcases h hb hm cid hcid with h' | h'
  · exact Or.inl h'
  · exact Or.inr (hseen _ h')

lemma processPost_covered_eq (kw : String) (ex : List (Option String)) (st : KwRun) (p : RPost)
    (h : PostCovered st.seen ex p) :
    processPost kw ex st p = { st with duplicates := st.duplicates + 1 } := by
  have h' : p.id ∈ st.seen ∨ some p.id ∈ ex := h
  simp only [processPost, if_pos h']

lemma foldPosts_dup_only (kw : String) (ex : List (Option String)) (ps : List RPost) :
    ∀ st, (∀ p ∈ ps, PostCovered st.seen ex p) →
      ps.foldl (processPost kw ex) st = { st with duplicates := st.duplicates + ps.length } := by
  induction ps with
  | nil => intro st _; simp
  | cons p ps ih =>
    intro st h
    rw [List.foldl_cons, processPost_covered_eq kw ex st p (h p (List.mem_cons_self p ps))]
    rw [ih { st with duplicates := st.duplicates + 1 }
      (fun q hq => h q (List.mem_cons_of_mem p hq))]
    obtain ⟨b, s, pf, cf, d, o, nw⟩ := st
    simp only [List.length_cons]
    have harith : d + 1 + ps.length = d + (ps.length + 1) := by omega
    simp [harith]

lemma processComment_covered_eq (kw : String) (hp : HotPost) (st : KwRun) (c : RComment)
    (h : CommentCovered kw st.seen c) :
    processComment kw hp st c = st := by
  by_cases hm : c.body ≠ "" ∧ pyIn kw c.body = true
  · cases hcid : c.id with
    | none => simp [processComment, if_pos hm, hcid]
    | some cid =>
      have hsk := h hm.1 hm.2 cid hcid
      simp [processComment, if_pos hm, hcid, if_pos hsk]
  · simp [processComment, if_neg hm]

lemma foldComments_covered_eq (kw : String) (hp : HotPost) (cs : List RComment) :
    ∀ st, (∀ c ∈ cs, CommentCovered kw st.seen c) →
      cs.foldl (processComment kw hp) st = st := by
  induction cs with
  | nil => intro st _; rfl
  | cons c cs ih =>
    intro st h
    rw [List.foldl_cons, processComment_covered_eq kw hp st c (h c (List.mem_cons_self c cs))]
    exact ih st (fun c' hc' => h c' (List.mem_cons_of_mem c hc'))

lemma foldHot_covered_eq (kw : String) (hps : List HotPost) :
    ∀ st, (∀ hp ∈ hps, ∀ c ∈ hp.comments, CommentCovered kw st.seen c) →
      hps.foldl (processHotPost kw) st = st := by
  induction hps with
  | nil => intro st _; rfl
  | cons hp hps ih =>
    intro st h
    rw [List.foldl_cons]
    have h1 : hp.comments.foldl (processComment kw hp) st = st :=
      foldComments_covered_eq kw hp hp.comments st (h hp (List.mem_cons_self hp hps))
    show hps.foldl (processHotPost kw) (processHotPost kw st hp) = st
    rw [show processHotPost kw st hp = st from h1]
    exact ih st (fun hp' hhp' => h hp' (List.mem_cons_of_mem hp hhp'))

/-! ### The seen-id set only grows -/

lemma processPost_seen_mono (kw : String) (ex : List (Option String)) (st : KwRun) (p : RPost) :
    ∀ x ∈ st.seen, x ∈ (processPost kw ex st p).seen := by
  intro x hx
  by_cases hc : p.id ∈ st.seen ∨ some p.id ∈ ex
  · simp only [processPost, if_pos hc]
    exact hx
  · simp only [processPost, if_neg hc, update_dates_seen]
    exact addSeen_subset x hx

lemma foldPosts_seen_mono (kw : String) (ex : List (Option String)) (ps : List RPost) :
    ∀ st, ∀ x ∈ st.seen, x ∈ (ps.foldl (processPost kw ex) st).seen := by
  induction ps with
  | nil => intro st x hx; exact hx
  | cons p ps ih =>
    intro st x hx
    rw [List.foldl_cons]
    exact ih _ x (processPost_seen_mono kw ex st p x hx)

lemma processComment_seen_mono (kw : String) (hp : HotPost) (st : KwRun) (c : RComment) :
    ∀ x ∈ st.seen, x ∈ (processComment kw hp st c).seen := by
  intro x hx
  by_cases hm : c.body ≠ "" ∧ pyIn kw c.body = true
  · cases hcid : c.id with
    | none => simp only [processComment, if_pos hm, hcid]; exact hx
    | some cid =>
      by_cases hsk : cid = "" ∨ cid ∈ st.seen
      · simp only [processComment, if_pos hm, hcid, if_pos hsk]; exact hx
      · simp only [processComment, if_pos hm, hcid, if_neg hsk, update_dates_seen]
        exact addSeen_subset x hx
  · simp only [processComment, if_neg hm]; exact hx

lemma foldComments_seen_mono (kw : String) (hp : HotPost) (cs : List RComment) :
    ∀ st, ∀ x ∈ st.seen, x ∈ (cs.foldl (processComment kw hp) st).seen := by
  induction cs with
  | nil => intro st x hx; exact hx
  | cons c cs ih =>
    intro st x hx
    rw [List.foldl_cons]
    exact ih _ x (processComment_seen_mono kw hp st c x hx)

lemma foldHot_seen_mono (kw : String) (hps : List HotPost) :
    ∀ st, ∀ x ∈ st.seen, x ∈ (hps.foldl (processHotPost kw) st).seen := by
  induction hps with
  | nil => intro st x hx; exact hx
  | cons hp hps ih =>
    intro st x hx
    rw [List.foldl_cons]
    exact ih _ x (foldComments_seen_mono kw hp hp.comments st x hx)

/-! ### Every processed candidate ends up covered -/

lemma foldPosts_covers (kw : String) (ex : List (Option String)) (ps : List RPost) :
    ∀ st, ∀ p ∈ ps, PostCovered (ps.foldl (processPost kw ex) st).seen ex p := by
  induction ps with
  | nil => intro st p hp; exact absurd hp (List.not_mem_nil p)
  | cons q ps ih =>
    intro st p hp
    rw [List.foldl_cons]
    rcases List.mem_cons.mp hp with rfl | hp
    · by_cases hc : p.id ∈ st.seen ∨ some p.id ∈ ex
      · rcases hc with hc | hc
        · exact Or.inl (foldPosts_seen_mono kw ex ps _ _
            (processPost_seen_mono kw ex st p _ hc))
        · exact Or.inr hc
      · refine Or.inl (foldPosts_seen_mono kw ex ps _ _ ?_)
        simp only [processPost, if_neg hc, update_dates_seen]
        exact mem_addSeen_self
    · exact ih _ p hp

lemma foldComments_covers (kw : String) (hp : HotPost) (cs : List RComment) :
    ∀ st, ∀ c ∈ cs, CommentCovered kw (cs.foldl (processComment kw hp) st).seen c := by
  induction cs with
  | nil => intro st c hc; exact absurd hc (List.not_mem_nil c)
  | cons c0 cs ih =>
    intro st c hc
    rw [List.foldl_cons]
    rcases List.mem_cons.mp hc with rfl | hc
    · intro hb hm cid hcid
      by_cases hempty : cid = ""
      · exact Or.inl hempty
      · refine Or.inr (foldComments_seen_mono kw hp cs _ _ ?_)
        by_cases hseen : cid ∈ st.seen
        · exact processComment_seen_mono kw hp st c _ hseen
        · have hcond : c.body ≠ "" ∧ pyIn kw c.body = true := ⟨hb, hm⟩
          have hskip : ¬(cid = "" ∨ cid ∈ st.seen) := not_or.mpr ⟨hempty, hseen⟩
          simp only [processComment, if_pos hcond, hcid, if_neg hskip, update_dates_seen]
          exact mem_addSeen_self
    · exact ih _ c hc

lemma foldHot_covers (kw : String) (hps : List HotPost) :
    ∀ st, ∀ hp ∈ hps, ∀ c ∈ hp.comments,
      CommentCovered kw (hps.foldl (processHotPost kw) st).seen c := by
  induction hps with
  | nil => intro st hp hhp; exact absurd hhp (List.not_mem_nil hp)
  | cons hp0 hps ih =>
    intro st hp hhp c hc
    rw [List.foldl_cons]
    rcases List.mem_cons.mp hhp with rfl | hhp
    · exact commentCovered_mono (fun x hx => foldHot_seen_mono kw hps _ x hx)
        (foldComments_covers kw hp hp.comments st c hc)
    · exact ih _ hp hhp c hc

/-! ### Keyword-level consequences -/

lemma kwStateOf_eq (remote : Remote) (cfg : Config) (kw : String)
    (file : JsonFile Record) (seen : List String) :
    kwStateOf remote cfg kw file seen =
      (if cfg.includeComments then
        (remote.hot kw).foldl (processHotPost kw)
          (searchRetry kw ((load_json_list file).map Record.id) cfg.sleep_s (remote.fetch kw)
            (attemptNums 1 cfg.max_retries) (initState (load_json_list file) seen)).st
      else
        (searchRetry kw ((load_json_list file).map Record.id) cfg.sleep_s (remote.fetch kw)
          (attemptNums 1 cfg.max_retries) (initState (load_json_list file) seen)).st) := rfl

lemma max_retries_succ {cfg : Config} (hmr : 1 ≤ cfg.max_retries) :
    ∃ k, cfg.max_retries = k + 1 := by
  cases hn : cfg.max_retries with
  | zero => rw [hn] at hmr; exact absurd hmr (by omega)
  | succ k => exact ⟨k, rfl⟩

lemma kwStateOf_covered (remote : Remote) (cfg : Config) (kw : String)
    (file : JsonFile Record) (seen : List String) (P : List RPost)
    (hf : ∀ a, remote.fetch kw a = .ok P) (hmr : 1 ≤ cfg.max_retries) :
    (∀ p ∈ P, PostCovered (kwStateOf remote cfg kw file seen).seen
        ((kwStateOf remote cfg kw file seen).bucket.map Record.id) p) ∧
    (cfg.includeComments = true → ∀ hp ∈ remote.hot kw, ∀ c ∈ hp.comments,
      CommentCovered kw (kwStateOf remote cfg kw file seen).seen c) := by
  obtain ⟨k, hk⟩ := max_retries_succ hmr
  have hatt : attemptNums 1 cfg.max_retries = 1 :: attemptNums 2 k := by rw [hk]; rfl
  have hsr : (searchRetry kw ((load_json_list file).map Record.id) cfg.sleep_s
      (remote.fetch kw) (attemptNums 1 cfg.max_retries)
      (initState (load_json_list file) seen)).st =
      P.foldl (processPost kw ((load_json_list file).map Record.id))
        (initState (load_json_list file) seen) := by
    rw [hatt, searchRetry_ok_head _ _ _ _ _ _ _ _ (hf 1)]
  have hseenmono : ∀ x ∈ (P.foldl (processPost kw ((load_json_list file).map Record.id))
      (initState (load_json_list file) seen)).seen,
      x ∈ (kwStateOf remote cfg kw file seen).seen := by
    rw [kwStateOf_eq, hsr]
    cases hic : cfg.includeComments with
    | true =>
      simp only [if_pos rfl]
      exact fun x hx => foldHot_seen_mono kw (remote.hot kw) _ x hx
    | false =>
      simp only [if_neg Bool.false_ne_true]
      exact fun x hx => hx
  constructor
  · intro p hp
    have hcov := foldPosts_covers kw ((load_json_list file).map Record.id) P
      (initState (load_json_list file) seen) p hp
    have hidmono : ∀ x ∈ (load_json_list file).map Record.id,
        x ∈ (kwStateOf remote cfg kw file seen).bucket.map Record.id := by
      obtain ⟨δ, hδ⟩ := goodRun_kwStateOf remote cfg kw file seen
      rw [hδ.bucket_eq, List.map_append]
      exact fun x hx => List.mem_append_left _ hx
    exact postCovered_mono hseenmono hidmono hcov
  · intro hic
    have hfin : kwStateOf remote cfg kw file seen =
        (remote.hot kw).foldl (processHotPost kw)
          (P.foldl (processPost kw ((load_json_list file).map Record.id))
            (initState (load_json_list file) seen)) := by
      rw [kwStateOf_eq, hsr, hic, if_pos rfl]
    intro hp hhp c hc
    rw [hfin]
    exact foldHot_covers kw (remote.hot kw) _ hp hhp c hc

lemma kwStateOf_noop (remote : Remote) (cfg : Config) (kw : String)
    (file : JsonFile Record) (seen : List String) (P : List RPost)
    (hf : ∀ a, remote.fetch kw a = .ok P) (hmr : 1 ≤ cfg.max_retries)
    (Hp : ∀ p ∈ P, PostCovered seen ((load_json_list file).map Record.id) p)
    (Hc : cfg.includeComments = true → ∀ hp ∈ remote.hot kw, ∀ c ∈ hp.comments,
      CommentCovered kw seen c) :
    kwStateOf remote cfg kw file seen =
      ⟨load_json_list file, seen, 0, 0, P.length, none, none⟩ := by
  obtain ⟨k, hk⟩ := max_retries_succ hmr
  have hatt : attemptNums 1 cfg.max_retries = 1 :: attemptNums 2 k := by rw [hk]; rfl
  have hsr : (searchRetry kw ((load_json_list file).map Record.id) cfg.sleep_s
      (remote.fetch kw) (attemptNums 1 cfg.max_retries)
      (initState (load_json_list file) seen)).st =
      P.foldl (processPost kw ((load_json_list file).map Record.id))
        (initState (load_json_list file) seen) := by
    rw [hatt, searchRetry_ok_head _ _ _ _ _ _ _ _ (hf 1)]
  have hfold : P.foldl (processPost kw ((load_json_list file).map Record.id))
      (initState (load_json_list file) seen) =
      ⟨load_json_list file, seen, 0, 0, P.length, none, none⟩ := by
    rw [foldPosts_dup_only kw ((load_json_list file).map Record.id) P
      (initState (load_json_list file) seen) Hp]
    simp [initState]
  rw [kwStateOf_eq, hsr, hfold]
  cases hic : cfg.includeComments with
  | false => simp only [if_neg Bool.false_ne_true]
  | true =>
    simp only [if_pos rfl]
    exact foldHot_covered_eq kw (remote.hot kw) _ (fun hp hhp c hc => Hc hic hp hhp c hc)

/-! ### Run-level lemmas about the collection loop -/

lemma run_cons (remote : Remote) (cfg : Config) (kw : String) (rest : List String)
    (rs : RunState) :
    search_posts_and_comments remote cfg (kw :: rest) rs =
      search_posts_and_comments remote cfg rest
        { fs := fun n => if n = kwFileName cfg kw then
            JsonFile.list (runKeyword remote cfg kw (rs.fs (kwFileName cfg kw)) rs.seen).bucket
          else rs.fs n,
          summary := append_csv_row summaryHeader
            (rowCells (runKeyword remote cfg kw (rs.fs (kwFileName cfg kw)) rs.seen).row)
            rs.summary,
          seen := (runKeyword remote cfg kw (rs.fs (kwFileName cfg kw)) rs.seen).seen,
          results := rs.results ++
            [runKeyword remote cfg kw (rs.fs (kwFileName cfg kw)) rs.seen] } := rfl

lemma run_results_length (remote : Remote) (cfg : Config) (kws : List String) :
    ∀ rs : RunState, (search_posts_and_comments remote cfg kws rs).results.length
      = rs.results.length + kws.length := by
  induction kws with
  | nil => intro rs; simp [search_posts_and_comments]
  | cons kw rest ih =>
    intro rs
    rw [run_cons, ih]
    simp only [List.length_append, List.length_cons, List.length_nil]
    omega

lemma run_results_prefix (remote : Remote) (cfg : Config) (kws : List String) :
    ∀ rs : RunState, ∃ newres,
      (search_posts_and_comments remote cfg kws rs).results = rs.results ++ newres := by
  induction kws with
  | nil => intro rs; exact ⟨[], (List.append_nil _).symm⟩
  | cons kw rest ih =>
    intro rs
    rw [run_cons]
    obtain ⟨newres, hres⟩ := ih _
    refine ⟨runKeyword remote cfg kw (rs.fs (kwFileName cfg kw)) rs.seen :: newres, ?_⟩
    rw [hres]
    simp

lemma kwStateOf_seen_mono (remote : Remote) (cfg : Config) (kw : String)
    (file : JsonFile Record) (seen : List String) :
    ∀ x ∈ seen, x ∈ (kwStateOf remote cfg kw file seen).seen := by
  obtain ⟨δ, hδ⟩ := goodRun_kwStateOf remote cfg kw file seen
  exact hδ.seen_mono

lemma kwStateOf_bucket_ext (remote : Remote) (cfg : Config) (kw : String)
    (file : JsonFile Record) (seen : List String) :
    ∃ δ, (kwStateOf remote cfg kw file seen).bucket = load_json_list file ++ δ := by
  obtain ⟨δ, hδ⟩ := goodRun_kwStateOf remote cfg kw file seen
  exact ⟨δ, hδ.bucket_eq⟩

lemma run_seen_mono (remote : Remote) (cfg : Config) (kws : List String) :
    ∀ rs : RunState, ∀ x ∈ rs.seen, x ∈ (search_posts_and_comments remote cfg kws rs).seen := by
  induction kws with
  | nil => intro rs x hx; exact hx
  | cons kw rest ih =>
    intro rs x hx
    rw [run_cons]
    refine ih _ x ?_
    show x ∈ (runKeyword remote cfg kw (rs.fs (kwFileName cfg kw)) rs.seen).seen
    rw [runKeyword_seen_eq]
    exact kwStateOf_seen_mono remote cfg kw (rs.fs (kwFileName cfg kw)) rs.seen x hx

lemma run_fs_ext (remote : Remote) (cfg : Config) (kws : List String) :
    ∀ (rs : RunState) (name : String), ∃ δ,
      load_json_list ((search_posts_and_comments remote cfg kws rs).fs name)
        = load_json_list (rs.fs name) ++ δ := by
  induction kws with
  | nil => intro rs name; exact ⟨[], (List.append_nil _).symm⟩
  | cons kw rest ih =>
    intro rs name
    rw [run_cons]
    obtain ⟨δ1, h1⟩ := ih _ name
    rw [h1]
    dsimp only
    by_cases hn : name = kwFileName cfg kw
    · rw [if_pos hn]
      obtain ⟨δ0, h0⟩ := kwStateOf_bucket_ext remote cfg kw (rs.fs (kwFileName cfg kw)) rs.seen
      refine ⟨δ0 ++ δ1, ?_⟩
      show (runKeyword remote cfg kw (rs.fs (kwFileName cfg kw)) rs.seen).bucket ++ δ1
        = load_json_list (rs.fs name) ++ (δ0 ++ δ1)
      rw [runKeyword_bucket_eq, h0, hn, List.append_assoc]
    · rw [if_neg hn]
      exact ⟨δ1, rfl⟩

lemma run_fs_list_preserved (remote : Remote) (cfg : Config) (kws : List String) :
    ∀ (rs : RunState) (name : String) (b : List Record), rs.fs name = JsonFile.list b →
      ∃ b', (search_posts_and_comments remote cfg kws rs).fs name = JsonFile.list b' := by
  induction kws with
  | nil => intro rs name b hb; exact ⟨b, hb⟩
  | cons kw rest ih =>
    intro rs name b hb
    rw [run_cons]
    by_cases hn : name = kwFileName cfg kw
    · refine ih _ name
        (runKeyword remote cfg kw (rs.fs (kwFileName cfg kw)) rs.seen).bucket ?_
      dsimp only
      rw [if_pos hn]
    · refine ih _ name b ?_
      dsimp only
      rw [if_neg hn]
      exact hb

lemma run_written (remote : Remote) (cfg : Config) (kws : List String) :
    ∀ (rs : RunState) (kw : String), kw ∈ kws →
      ∃ b, (search_posts_and_comments remote cfg kws rs).fs (kwFileName cfg kw)
        = JsonFile.list b := by
  induction kws with
  | nil => intro rs kw h; exact absurd h (List.not_mem_nil kw)
  | cons kw0 rest ih =>
    intro rs kw h
    rcases List.mem_cons.mp h with rfl | h
    · rw [run_cons]
      refine run_fs_list_preserved remote cfg rest _ (kwFileName cfg kw)
        (runKeyword remote cfg kw (rs.fs (kwFileName cfg kw)) rs.seen).bucket ?_
      dsimp only
      rw [if_pos rfl]
    · rw [run_cons]
      exact ih _ kw h

lemma run_covered (remote : Remote) (cfg : Config) (P : String → List RPost)
    (hf : ∀ kw a, remote.fetch kw a = .ok (P kw)) (hmr : 1 ≤ cfg.max_retries)
    (kws : List String) :
    ∀ (rs : RunState) (kw : String), kw ∈ kws →
      (∀ p ∈ P kw, PostCovered (search_posts_and_comments remote cfg kws rs).seen
        ((load_json_list ((search_posts_and_comments remote cfg kws rs).fs
          (kwFileName cfg kw))).map Record.id) p) ∧
      (cfg.includeComments = true → ∀ hp ∈ remote.hot kw, ∀ c ∈ hp.comments,
        CommentCovered kw (search_posts_and_comments remote cfg kws rs).seen c) := by
  induction kws with
  | nil => intro rs kw h; exact absurd h (List.not_mem_nil kw)
  | cons kw0 rest ih =>
    intro rs kw h
    rcases List.mem_cons.mp h with rfl | h
    · have hc := kwStateOf_covered remote cfg kw (rs.fs (kwFileName cfg kw)) rs.seen
        (P kw) (hf kw) hmr
      have hseenlift : ∀ x ∈ (kwStateOf remote cfg kw (rs.fs (kwFileName cfg kw)) rs.seen).seen,
          x ∈ (search_posts_and_comments remote cfg (kw :: rest) rs).seen := by
        intro x hx
        rw [run_cons]
        refine run_seen_mono remote cfg rest _ x ?_
        show x ∈ (runKeyword remote cfg kw (rs.fs (kwFileName cfg kw)) rs.seen).seen
        rw [runKeyword_seen_eq]
        exact hx
      constructor
      · intro p hp
        refine postCovered_mono hseenlift ?_ (hc.1 p hp)
        intro x hx
        rw [run_cons]
        obtain ⟨δ1, h1⟩ := run_fs_ext remote cfg rest _ (kwFileName cfg kw)
        rw [h1]
        dsimp only
        rw [if_pos rfl]
        show x ∈ ((runKeyword remote cfg kw (rs.fs (kwFileName cfg kw)) rs.seen).bucket
          ++ δ1).map Record.id
        rw [runKeyword_bucket_eq, List.map_append]
        exact List.mem_append_left _ hx
      · intro hic hp hhp c hc'
        exact commentCovered_mono hseenlift (hc.2 hic hp hhp c hc')
    · rw [run_cons]
      exact ih _ kw h

lemma run_noop (remote : Remote) (cfg : Config) (P : String → List RPost)
    (hf : ∀ kw a, remote.fetch kw a = .ok (P kw)) (hmr : 1 ≤ cfg.max_retries)
    (kws : List String) :
    ∀ rs : RunState,
      (∀ kw ∈ kws,
        (∀ p ∈ P kw, PostCovered rs.seen
          ((load_json_list (rs.fs (kwFileName cfg kw))).map Record.id) p) ∧
        (cfg.includeComments = true → ∀ hp ∈ remote.hot kw, ∀ c ∈ hp.comments,
          CommentCovered kw rs.seen c) ∧
        (∃ b, rs.fs (kwFileName cfg kw) = JsonFile.list b)) →
      (search_posts_and_comments remote cfg kws rs).fs = rs.fs ∧
      (search_posts_and_comments remote cfg kws rs).seen = rs.seen ∧
      ∃ newres, (search_posts_and_comments remote cfg kws rs).results = rs.results ++ newres ∧
        ∀ res ∈ newres, res.row.posts_found = 0 ∧ res.row.comments_found = 0 ∧
          res.bucket = load_json_list (rs.fs (kwFileName cfg res.row.keyword)) := by
  induction kws with
  | nil =>
    intro rs _
    exact ⟨rfl, rfl, [], (List.append_nil _).symm, fun res h => absurd h (List.not_mem_nil res)⟩
  | cons kw rest ih =>
    intro rs H
    obtain ⟨Hp, Hc, b, hb⟩ := H kw (List.mem_cons_self kw rest)
    have hstate := kwStateOf_noop remote cfg kw (rs.fs (kwFileName cfg kw)) rs.seen (P kw)
      (hf kw) hmr Hp Hc
    rw [run_cons]
    set res := runKeyword remote cfg kw (rs.fs (kwFileName cfg kw)) rs.seen with hres
    have hbucket : res.bucket = load_json_list (rs.fs (kwFileName cfg kw)) := by
      rw [hres, runKeyword_bucket_eq, hstate]
    have hseen : res.seen = rs.seen := by
      rw [hres, runKeyword_seen_eq, hstate]
    have hpf : res.row.posts_found = 0 := by rw [hres, runKeyword_row_posts, hstate]
    have hcf : res.row.comments_found = 0 := by rw [hres, runKeyword_row_comments, hstate]
    have hkw : res.row.keyword = kw := by rw [hres, runKeyword_row_keyword]
    have hfs : (fun n => if n = kwFileName cfg kw then JsonFile.list res.bucket else rs.fs n)
        = rs.fs := by
      funext n
      by_cases hn : n = kwFileName cfg kw
      · rw [if_pos hn, hbucket, hn, hb]
        rfl
      · rw [if_neg hn]
    rw [hfs, hseen]
    obtain ⟨h1, h2, newres, h3, h4⟩ := ih
      ⟨rs.fs, append_csv_row summaryHeader (rowCells res.row) rs.summary,
        rs.seen, rs.results ++ [res]⟩
      (fun kw' hk => H kw' (List.mem_cons_of_mem kw hk))
    refine ⟨h1, h2, res :: newres, ?_, ?_⟩
    · rw [h3, List.append_assoc]
      rfl
    · intro r hr
      rcases List.mem_cons.mp hr with rfl | hr
      · refine ⟨hpf, hcf, ?_⟩
        rw [hkw]
        exact hbucket
      · exact h4 r hr

/-! ### Lemmas about the filename sanitizer and the date helper -/

lemma string_mk_ne_empty (c : Char) (l : List Char) : String.mk (c :: l) ≠ "" :=
  fun h => List.cons_ne_nil c l (congrArg String.data h)

lemma string_mk_length (l : List Char) : (String.mk l).length = l.length := rfl

lemma collapseAux_all_allowed (l : List Char) :
    ∀ (flag : Bool), ∀ c ∈ collapseAux flag l, allowedChar c = true := by
  induction l with
  | nil => intro flag c hc; exact absurd hc (List.not_mem_nil c)
  | cons a l ih =>
    intro flag c hc
    simp only [collapseAux] at hc
    by_cases ha : allowedChar a = true
    · rw [if_pos ha] at hc
      rcases List.mem_cons.mp hc with rfl | hc
      · exact ha
      · exact ih false c hc
    · rw [if_neg ha] at hc
      cases flag with
      | true =>
        rw [if_pos rfl] at hc
        exact ih true c hc
      | false =>
        rw [if_neg Bool.false_ne_true] at hc
        rcases List.mem_cons.mp hc with rfl | hc
        · decide
        · exact ih true c hc

lemma collapseRuns_cons_ne_nil (a : Char) (l : List Char) :
    collapseRuns (a :: l) ≠ [] := by
  unfold collapseRuns
  simp only [collapseAux]
  by_cases ha : allowedChar a = true
  · rw [if_pos ha]
    exact List.cons_ne_nil _ _
  · rw [if_neg ha, if_neg Bool.false_ne_true]
    exact List.cons_ne_nil _ _

lemma now_utc_date_low (t : Int) (h : t < tsMinValid) : now_utc_date (some t) = "N/A" := by
  have ht0 : ¬t = 0 := by
    intro h0
    rw [h0] at h
    exact absurd h (by decide)
  simp only [now_utc_date, if_neg ht0, if_pos (Or.inl h)]

lemma now_utc_date_high (t : Int) (h : tsMaxValid ≤ t) : now_utc_date (some t) = "N/A" := by
  have ht0 : ¬t = 0 := by
    intro h0
    rw [h0] at h
    exact absurd h (by decide)
  simp only [now_utc_date, if_neg ht0, if_pos (Or.inr h)]

lemma now_utc_date_in_range (t : Int) (ht0 : t ≠ 0) (hlo : tsMinValid ≤ t)
    (hhi : t < tsMaxValid) : now_utc_date (some t) = utcDateString t := by
  have hcond : ¬(t < tsMinValid ∨ tsMaxValid ≤ t) := by
    push_neg
    exact ⟨hlo, hhi⟩
  simp only [now_utc_date, if_neg ht0, if_neg hcond]

lemma runKeyword_attempts (remote : Remote) (cfg : Config) (kw : String)
    (file : JsonFile Record) (seen : List String) :
    (runKeyword remote cfg kw file seen).attempts =
      (searchRetry kw ((load_json_list file).map Record.id) cfg.sleep_s (remote.fetch kw)
        (attemptNums 1 cfg.max_retries) (initState (load_json_list file) seen)).attempts := rfl

lemma runKeyword_sleeps (remote : Remote) (cfg : Config) (kw : String)
    (file : JsonFile Record) (seen : List String) :
    (runKeyword remote cfg kw file seen).sleeps =
      (searchRetry kw ((load_json_list file).map Record.id) cfg.sleep_s (remote.fetch kw)
        (attemptNums 1 cfg.max_retries) (initState (load_json_list file) seen)).sleeps := rfl

lemma runKeyword_status (remote : Remote) (cfg : Config) (kw : String)
    (file : JsonFile Record) (seen : List String) :
    (runKeyword remote cfg kw file seen).status =
      (searchRetry kw ((load_json_list file).map Record.id) cfg.sleep_s (remote.fetch kw)
        (attemptNums 1 cfg.max_retries) (initState (load_json_list file) seen)).status := rfl

/-! ### Claim theorems -/

/-- C1 (amended): in one keyword iteration the post search checks each
    candidate against both the seen-id set and the loaded bucket's ids, but
    the comment scan checks only the seen-id set. Consequently the records
    appended during the iteration sit after the untouched loaded bucket,
    carry pairwise-distinct non-null ids that were not in the seen-id set at
    the start, and an appended post never repeats an id of the loaded
    bucket - that last guarantee does not extend to appended comments. -/
theorem c1_dedup_appended (remote : Remote) (cfg : Config) (kw : String)
    (file : JsonFile Record) (seen : List String) :
    (runKeyword remote cfg kw file seen).bucket.take (load_json_list file).length
      = load_json_list file ∧
    (((runKeyword remote cfg kw file seen).bucket.drop (load_json_list file).length).map
      Record.id).Nodup ∧
    (∀ r ∈ (runKeyword remote cfg kw file seen).bucket.drop (load_json_list file).length,
      ∃ s, r.id = some s ∧ s ∉ seen) ∧
    (∀ r ∈ (runKeyword remote cfg kw file seen).bucket.drop (load_json_list file).length,
      r.rtype = "post" → r.id ∉ (load_json_list file).map Record.id) := by
  obtain ⟨δ, hδ⟩ := goodRun_kwStateOf remote cfg kw file seen
  have hbe : (runKeyword remote cfg kw file seen).bucket = load_json_list file ++ δ := by
    rw [runKeyword_bucket_eq, hδ.bucket_eq]
  have hdrop : (runKeyword remote cfg kw file seen).bucket.drop (load_json_list file).length
      = δ := by
    rw [hbe, List.drop_left]
  refine ⟨?_, ?_, ?_, ?_⟩
  · rw [hbe, List.take_left]
  · rw [hdrop]
    exact hδ.new_nodup
  · rw [hdrop]
    intro r hr
    obtain ⟨s, hs1, _⟩ := hδ.new_in_seen r hr
    exact ⟨s, hs1, hδ.new_fresh r hr s hs1⟩
  · rw [hdrop]
    exact hδ.post_fresh

/-- C1 counterexample: a bucket loaded with a record of id `x`, an empty
    seen-id set, and a hot comment with the same id `x` whose body matches
    the keyword: the comment scan misses the bucket id and appends a second
    record with id `x`, so the bucket ends with a duplicated identifier. -/
theorem c1_comment_dup_counterexample :
    ((runKeyword
        ⟨fun _ _ => FetchResult.ok [],
         fun _ => [⟨some "hp", "s", "t", [⟨some "x", "k", "/c", 1, some 100⟩]⟩]⟩
        ⟨"results", 0, 1, true⟩ "k"
        (JsonFile.list [⟨"post", some "x", none, "s", "t", "b", "u", 1, some 50, "k"⟩])
        []).bucket.map Record.id) = [some "x", some "x"] ∧
    ¬ ((runKeyword
        ⟨fun _ _ => FetchResult.ok [],
         fun _ => [⟨some "hp", "s", "t", [⟨some "x", "k", "/c", 1, some 100⟩]⟩]⟩
        ⟨"results", 0, 1, true⟩ "k"
        (JsonFile.list [⟨"post", some "x", none, "s", "t", "b", "u", 1, some 50, "k"⟩])
        []).bucket.map Record.id).Nodup := by decide

/-- C3 (amended): the summary row's date fields are the min/max over the
    `created_utc` timestamps of the records appended during this run (not
    over the whole bucket), rendered by `now_utc_date`; when no record with
    a non-null timestamp was appended this run both fields are `N/A`. -/
theorem c3_summary_dates (remote : Remote) (cfg : Config) (kw : String)
    (file : JsonFile Record) (seen : List String) :
    (runKeyword remote cfg kw file seen).row.oldest_date
      = now_utc_date (listMin? (((runKeyword remote cfg kw file seen).bucket.drop
          (load_json_list file).length).filterMap Record.created_utc)) ∧
    (runKeyword remote cfg kw file seen).row.newest_date
      = now_utc_date (listMax? (((runKeyword remote cfg kw file seen).bucket.drop
          (load_json_list file).length).filterMap Record.created_utc)) ∧
    ((((runKeyword remote cfg kw file seen).bucket.drop
          (load_json_list file).length).filterMap Record.created_utc) = [] →
      (runKeyword remote cfg kw file seen).row.oldest_date = "N/A" ∧
      (runKeyword remote cfg kw file seen).row.newest_date = "N/A") := by
  obtain ⟨δ, hδ⟩ := goodRun_kwStateOf remote cfg kw file seen
  have hdrop : (runKeyword remote cfg kw file seen).bucket.drop (load_json_list file).length
      = δ := by
    rw [runKeyword_bucket_eq, hδ.bucket_eq, List.drop_left]
  refine ⟨?_, ?_, ?_⟩
  · rw [runKeyword_row_oldest, hδ.oldest_eq, hdrop]
  · rw [runKeyword_row_newest, hδ.newest_eq, hdrop]
  · intro hnil
    rw [hdrop] at hnil
    constructor
    · rw [runKeyword_row_oldest, hδ.oldest_eq, hnil]
      rfl
    · rw [runKeyword_row_newest, hδ.newest_eq, hnil]
      rfl

/-- C3 witness: a run with no search results and no comment scan puts `N/A`
    in both date fields. -/
theorem c3_summary_dates_witness :
    (runKeyword ⟨fun _ _ => FetchResult.ok [], fun _ => []⟩ ⟨"results", 0, 1, false⟩ "k"
      JsonFile.absent []).row.oldest_date = "N/A" ∧
    (runKeyword ⟨fun _ _ => FetchResult.ok [], fun _ => []⟩ ⟨"results", 0, 1, false⟩ "k"
      JsonFile.absent []).row.newest_date = "N/A" :=
  (c3_summary_dates ⟨fun _ _ => FetchResult.ok [], fun _ => []⟩ ⟨"results", 0, 1, false⟩ "k"
    JsonFile.absent []).2.2 (by decide)

/-- C3 counterexample: a bucket loaded with a record of timestamp 86400
    (1970-01-02) and one new post of timestamp 172800 (1970-01-03): the
    summary row reports 1970-01-03 as oldest date although the minimum over
    the whole bucket converts to 1970-01-02. -/
theorem c3_whole_bucket_counterexample :
    (runKeyword
      ⟨fun _ _ => FetchResult.ok [⟨"p", "s", "t", "b", "/p", 1, some 172800⟩], fun _ => []⟩
      ⟨"results", 0, 1, false⟩ "k"
      (JsonFile.list [⟨"post", some "q", none, "s", "t", "b", "u", 1, some 86400, "k"⟩])
      []).row.oldest_date = "1970-01-03" ∧
    now_utc_date (listMin? ((runKeyword
      ⟨fun _ _ => FetchResult.ok [⟨"p", "s", "t", "b", "/p", 1, some 172800⟩], fun _ => []⟩
      ⟨"results", 0, 1, false⟩ "k"
      (JsonFile.list [⟨"post", some "q", none, "s", "t", "b", "u", 1, some 86400, "k"⟩])
      []).bucket.filterMap Record.created_utc)) = "1970-01-02" ∧
    ("1970-01-03" : String) ≠ "1970-01-02" := by decide

/-- C2: running the collection loop a second time over an unchanged remote
    data set, with the seen-id set produced by the first run carried
    forward, appends zero new records to every bucket: every bucket file is
    unchanged, the seen-id set is unchanged, and every summary row of the
    second run reports zero posts found and zero comments found. -/
theorem c2_second_run_adds_nothing (remote : Remote) (cfg : Config) (P : String → List RPost)
    (kws : List String) (fs0 : String → JsonFile Record) (sum0 : Option (List (List String)))
    (seen0 : List String)
    (hf : ∀ kw a, remote.fetch kw a = .ok (P kw)) (hmr : 1 ≤ cfg.max_retries) :
    let r1 := search_posts_and_comments remote cfg kws ⟨fs0, sum0, seen0, []⟩
    let r2 := search_posts_and_comments remote cfg kws ⟨r1.fs, r1.summary, r1.seen, []⟩
    (∀ name, r2.fs name = r1.fs name) ∧ r2.seen = r1.seen ∧
    ∀ res ∈ r2.results, res.row.posts_found = 0 ∧ res.row.comments_found = 0 ∧
      res.bucket = load_json_list (r1.fs (kwFileName cfg res.row.keyword)) := by
  intro r1 r2
  have hcov := run_covered remote cfg P hf hmr kws ⟨fs0, sum0, seen0, []⟩
  have hwr := run_written remote cfg kws ⟨fs0, sum0, seen0, []⟩
  obtain ⟨h1, h2, newres, h3, h4⟩ := run_noop remote cfg P hf hmr kws
    ⟨r1.fs, r1.summary, r1.seen, []⟩
    (fun kw hk => ⟨(hcov kw hk).1, (hcov kw hk).2, hwr kw hk⟩)
  refine ⟨fun name => congrFun h1 name, h2, ?_⟩
  intro res hres
  rw [h3, List.nil_append] at hres
  exact h4 res hres

/-- C2 witness at a concrete one-keyword configuration: the seen-id set after
    the second run equals the seen-id set after the first run. -/
theorem c2_second_run_adds_nothing_witness :
    (search_posts_and_comments ⟨fun _ _ => FetchResult.ok [], fun _ => []⟩
      ⟨"results", 0, 1, false⟩ ["a"]
      ⟨(search_posts_and_comments ⟨fun _ _ => FetchResult.ok [], fun _ => []⟩
          ⟨"results", 0, 1, false⟩ ["a"] ⟨fun _ => JsonFile.absent, none, [], []⟩).fs,
        (search_posts_and_comments ⟨fun _ _ => FetchResult.ok [], fun _ => []⟩
          ⟨"results", 0, 1, false⟩ ["a"] ⟨fun _ => JsonFile.absent, none, [], []⟩).summary,
        (search_posts_and_comments ⟨fun _ _ => FetchResult.ok [], fun _ => []⟩
          ⟨"results", 0, 1, false⟩ ["a"] ⟨fun _ => JsonFile.absent, none, [], []⟩).seen,
        []⟩).seen
      = (search_posts_and_comments ⟨fun _ _ => FetchResult.ok [], fun _ => []⟩
          ⟨"results", 0, 1, false⟩ ["a"] ⟨fun _ => JsonFile.absent, none, [], []⟩).seen := by
  have h := c2_second_run_adds_nothing ⟨fun _ _ => FetchResult.ok [], fun _ => []⟩
    ⟨"results", 0, 1, false⟩ (fun _ => []) ["a"] (fun _ => JsonFile.absent) none []
    (fun _ _ => rfl) (by decide)
  exact h.2.1

/-- C4: when every post-search call signals rate limiting, the controller
    makes exactly `max_retries` attempts, sleeping `sleep_s * attempt` after
    each failed attempt (so before each retry), ends the search exhausted
    with the locals untouched, and the keyword iteration still performs the
    comment scan while the loop still produces one result per keyword. -/
theorem c4_retry_exhaustion (remote : Remote) (cfg : Config) (kw : String)
    (rest : List String) (rs : RunState)
    (h : ∀ a, remote.fetch kw a = FetchResult.rateLimited []) :
    (runKeyword remote cfg kw (rs.fs (kwFileName cfg kw)) rs.seen).attempts
      = cfg.max_retries ∧
    (runKeyword remote cfg kw (rs.fs (kwFileName cfg kw)) rs.seen).sleeps
      = (attemptNums 1 cfg.max_retries).map (fun a => cfg.sleep_s * a) ∧
    (runKeyword remote cfg kw (rs.fs (kwFileName cfg kw)) rs.seen).status
      = SearchStatus.exhausted ∧
    (runKeyword remote cfg kw (rs.fs (kwFileName cfg kw)) rs.seen).bucket
      = (if cfg.includeComments then
          ((remote.hot kw).foldl (processHotPost kw)
            (initState (load_json_list (rs.fs (kwFileName cfg kw))) rs.seen)).bucket
        else load_json_list (rs.fs (kwFileName cfg kw))) ∧
    (search_posts_and_comments remote cfg (kw :: rest) rs).results.length
      = rs.results.length + (rest.length + 1) := by
  have hsr := searchRetry_rateLimited_all kw
    ((load_json_list (rs.fs (kwFileName cfg kw))).map Record.id)
    cfg.sleep_s (remote.fetch kw) h (attemptNums 1 cfg.max_retries)
    (initState (load_json_list (rs.fs (kwFileName cfg kw))) rs.seen)
  refine ⟨?_, ?_, ?_, ?_, ?_⟩
  · rw [runKeyword_attempts, hsr]
    exact attemptNums_length cfg.max_retries 1
  · rw [runKeyword_sleeps, hsr]
  · rw [runKeyword_status, hsr]
  · rw [runKeyword_bucket_eq, kwStateOf_eq, hsr]
    cases hic : cfg.includeComments with
    | true => simp
    | false => simp [initState]
  · rw [run_results_length]
    rfl

/-- C4 witness at a concrete configuration with three retries. -/
theorem c4_retry_exhaustion_witness :
    (runKeyword ⟨fun _ _ => FetchResult.rateLimited [], fun _ => []⟩ ⟨"r", 2, 3, false⟩ "k"
      ((⟨fun _ => JsonFile.absent, none, [], []⟩ : RunState).fs
        (kwFileName ⟨"r", 2, 3, false⟩ "k"))
      (⟨fun _ => JsonFile.absent, none, [], []⟩ : RunState).seen).attempts = 3 ∧
    (runKeyword ⟨fun _ _ => FetchResult.rateLimited [], fun _ => []⟩ ⟨"r", 2, 3, false⟩ "k"
      ((⟨fun _ => JsonFile.absent, none, [], []⟩ : RunState).fs
        (kwFileName ⟨"r", 2, 3, false⟩ "k"))
      (⟨fun _ => JsonFile.absent, none, [], []⟩ : RunState).seen).sleeps = [2, 4, 6] ∧
    (search_posts_and_comments ⟨fun _ _ => FetchResult.rateLimited [], fun _ => []⟩
      ⟨"r", 2, 3, false⟩ ["k"] ⟨fun _ => JsonFile.absent, none, [], []⟩).results.length = 1 := by
  have h := c4_retry_exhaustion ⟨fun _ _ => FetchResult.rateLimited [], fun _ => []⟩
    ⟨"r", 2, 3, false⟩ "k" [] ⟨fun _ => JsonFile.absent, none, [], []⟩ (fun _ => rfl)
  exact ⟨h.1, by rw [h.2.1]; rfl, h.2.2.2.2⟩

/-- C5: a non-transient exception from the post search aborts the search
    step after exactly one attempt with no backoff sleep, and the loop still
    produces one result per keyword (comment scan and later keywords run). -/
theorem c5_nontransient_no_retry (remote : Remote) (cfg : Config) (kw : String)
    (rest : List String) (rs : RunState) (ps : List RPost)
    (h1 : remote.fetch kw 1 = FetchResult.otherError ps) (h2 : 1 ≤ cfg.max_retries) :
    (runKeyword remote cfg kw (rs.fs (kwFileName cfg kw)) rs.seen).attempts = 1 ∧
    (runKeyword remote cfg kw (rs.fs (kwFileName cfg kw)) rs.seen).sleeps = [] ∧
    (runKeyword remote cfg kw (rs.fs (kwFileName cfg kw)) rs.seen).status
      = SearchStatus.fatalError ∧
    (search_posts_and_comments remote cfg (kw :: rest) rs).results.length
      = rs.results.length + (rest.length + 1) := by
  obtain ⟨k, hk⟩ := max_retries_succ h2
  have hatt : attemptNums 1 cfg.max_retries = 1 :: attemptNums 2 k := by rw [hk]; rfl
  have hsr := searchRetry_otherError_head kw
    ((load_json_list (rs.fs (kwFileName cfg kw))).map Record.id)
    cfg.sleep_s (remote.fetch kw) 1 (attemptNums 2 k)
    (initState (load_json_list (rs.fs (kwFileName cfg kw))) rs.seen) ps h1
  refine ⟨?_, ?_, ?_, ?_⟩
  · rw [runKeyword_attempts, hatt, hsr]
  · rw [runKeyword_sleeps, hatt, hsr]
  · rw [runKeyword_status, hatt, hsr]
  · rw [run_results_length]
    rfl

/-- C5 witness at a concrete configuration. -/
theorem c5_nontransient_no_retry_witness :
    (runKeyword ⟨fun _ _ => FetchResult.otherError [], fun _ => []⟩ ⟨"r", 2, 3, false⟩ "k"
      ((⟨fun _ => JsonFile.absent, none, [], []⟩ : RunState).fs
        (kwFileName ⟨"r", 2, 3, false⟩ "k"))
      (⟨fun _ => JsonFile.absent, none, [], []⟩ : RunState).seen).attempts = 1 ∧
    (runKeyword ⟨fun _ _ => FetchResult.otherError [], fun _ => []⟩ ⟨"r", 2, 3, false⟩ "k"
      ((⟨fun _ => JsonFile.absent, none, [], []⟩ : RunState).fs
        (kwFileName ⟨"r", 2, 3, false⟩ "k"))
      (⟨fun _ => JsonFile.absent, none, [], []⟩ : RunState).seen).sleeps = [] ∧
    (search_posts_and_comments ⟨fun _ _ => FetchResult.otherError [], fun _ => []⟩
      ⟨"r", 2, 3, false⟩ ["k"] ⟨fun _ => JsonFile.absent, none, [], []⟩).results.length = 1 := by
  have h := c5_nontransient_no_retry ⟨fun _ _ => FetchResult.otherError [], fun _ => []⟩
    ⟨"r", 2, 3, false⟩ "k" [] ⟨fun _ => JsonFile.absent, none, [], []⟩ [] rfl (by decide)
  exact ⟨h.1, h.2.1, h.2.2.2⟩

/-- C6 (amended): the sanitizer first strips leading and trailing
    whitespace, then collapses each maximal run of disallowed characters to
    one underscore; the result is never empty, is at most 100 characters,
    and contains only characters of the class `[A-Za-z0-9._-]` (an input
    whose stripped form is empty maps to the placeholder `untitled`). -/
theorem c6_sanitize_filename (s : String) :
    sanitize_filename s 100 ≠ "" ∧
    (sanitize_filename s 100).length ≤ 100 ∧
    (∀ c ∈ (sanitize_filename s 100).toList, allowedChar c = true) ∧
    sanitize_filename s 100 = claimed_sanitize (pyStrip s) 100 := by
  refine ⟨?_, ?_, ?_, rfl⟩
  · simp only [sanitize_filename]
    cases hl : (pyStrip s).toList with
    | nil =>
      rw [if_pos (show String.mk (collapseRuns []) = "" from rfl)]
      decide
    | cons a l =>
      cases hcl : collapseRuns (a :: l) with
      | nil => exact absurd hcl (collapseRuns_cons_ne_nil a l)
      | cons c l' =>
        rw [if_neg (string_mk_ne_empty c l')]
        show String.mk ((c :: l').take 100) ≠ ""
        exact string_mk_ne_empty _ _
  · simp only [sanitize_filename]
    cases hl : (pyStrip s).toList with
    | nil =>
      rw [if_pos (show String.mk (collapseRuns []) = "" from rfl)]
      decide
    | cons a l =>
      cases hcl : collapseRuns (a :: l) with
      | nil => exact absurd hcl (collapseRuns_cons_ne_nil a l)
      | cons c l' =>
        rw [if_neg (string_mk_ne_empty c l')]
        show (String.mk ((c :: l').take 100)).length ≤ 100
        rw [string_mk_length, List.length_take]
        exact min_le_left _ _
  · simp only [sanitize_filename]
    cases hl : (pyStrip s).toList with
    | nil =>
      rw [if_pos (show String.mk (collapseRuns []) = "" from rfl)]
      decide
    | cons a l =>
      cases hcl : collapseRuns (a :: l) with
      | nil => exact absurd hcl (collapseRuns_cons_ne_nil a l)
      | cons c l' =>
        rw [if_neg (string_mk_ne_empty c l')]
        intro ch hch
        have hch2 : ch ∈ c :: l' := List.take_subset 100 (c :: l') hch
        have hall : ∀ x ∈ collapseRuns (a :: l), allowedChar x = true :=
          collapseAux_all_allowed (a :: l) false
        exact hall ch (hcl.symm ▸ hch2)

/-- C6 counterexample: the claimed collapse rule would map the input
    consisting of a space, `a`, and a space to an underscore on each side,
    but the source strips the whitespace first and returns just `a`. -/
theorem c6_strip_counterexample :
    sanitize_filename " a " 100 = "a" ∧ claimed_sanitize " a " 100 = "_a_" ∧
    ("a" : String) ≠ "_a_" := by decide

/-- C7 counterexample: with an empty keyword list the loop body never runs
    and `append_csv_row` is never called, so an initially absent summary
    file stays absent instead of being created with only the header row. -/
theorem c7_no_summary_counterexample :
    (search_posts_and_comments ⟨fun _ _ => FetchResult.ok [], fun _ => []⟩
      ⟨"results", 0, 1, false⟩ [] ⟨fun _ => JsonFile.absent, none, [], []⟩).summary = none ∧
    (none : Option (List (List String))) ≠ some [summaryHeader] :=
  ⟨rfl, by decide⟩

/-- C7 (amended): with an empty keyword list the loop body never executes
    and the run state is returned unchanged; in particular no summary row is
    appended and an absent summary file is not created. The header is only
    written by `append_csv_row` together with the first appended row. -/
theorem c7_empty_keywords (remote : Remote) (cfg : Config) (rs : RunState) :
    search_posts_and_comments remote cfg [] rs = rs ∧
    (∀ header row, append_csv_row header row none = some [header, row]) ∧
    (∀ header row, append_csv_row header row (some []) = some [header, row]) :=
  ⟨rfl, fun _ _ => rfl, fun _ _ => rfl⟩

/-- C8: a seen-id file that exists but does not parse yields the empty
    seen-id set and the run proceeds exactly as with an empty set; likewise
    a corrupt per-keyword bucket file behaves as an empty bucket. -/
theorem c8_corrupt_state_recovery (remote : Remote) (cfg : Config) (kws : List String)
    (fs0 : String → JsonFile Record) (sum0 : Option (List (List String))) :
    seenFromFile JsonFile.corrupt = [] ∧
    load_json_list (JsonFile.corrupt : JsonFile Record) = [] ∧
    search_posts_and_comments remote cfg kws ⟨fs0, sum0, seenFromFile JsonFile.corrupt, []⟩
      = search_posts_and_comments remote cfg kws ⟨fs0, sum0, [], []⟩ ∧
    (∀ kw seen, runKeyword remote cfg kw JsonFile.corrupt seen
      = runKeyword remote cfg kw (JsonFile.list []) seen) :=
  ⟨rfl, rfl, rfl, fun _ _ => rfl⟩

/-- C9 (amended): `now_utc_date` returns `N/A` for a missing timestamp, for
    the falsy timestamp 0, and also for every timestamp outside the range
    `datetime` can represent (before year 1 or from year 10000 on, where
    the conversion raises and the `except` branch returns the marker); for
    every other timestamp it returns the UTC calendar date. -/
theorem c9_date_helper :
    now_utc_date none = "N/A" ∧ now_utc_date (some 0) = "N/A" ∧
    (∀ t : Int, t < tsMinValid → now_utc_date (some t) = "N/A") ∧
    (∀ t : Int, tsMaxValid ≤ t → now_utc_date (some t) = "N/A") ∧
    (∀ t : Int, t ≠ 0 → tsMinValid ≤ t → t < tsMaxValid →
      now_utc_date (some t) = utcDateString t) :=
  ⟨rfl, rfl, now_utc_date_low, now_utc_date_high, now_utc_date_in_range⟩

/-- C9 witness: a timestamp in range converts to its calendar date, and the
    first out-of-range timestamp maps to the marker. -/
theorem c9_date_helper_witness :
    now_utc_date (some 86400) = utcDateString 86400 ∧
    now_utc_date (some 253402300800) = "N/A" :=
  ⟨c9_date_helper.2.2.2.2 86400 (by decide) (by decide) (by decide),
   c9_date_helper.2.2.2.1 253402300800 (by decide)⟩

/-- C9 counterexample: 253402300800 is a non-falsy numeric timestamp (the
    first second of year 10000) for which the helper returns `N/A`, not the
    UTC calendar date in YYYY-MM-DD form. -/
theorem c9_overflow_counterexample :
    now_utc_date (some 253402300800) = "N/A" ∧
    utcDateString 253402300800 = "10000-01-01" ∧
    (253402300800 : Int) ≠ 0 ∧
    ("N/A" : String) ≠ "10000-01-01" := by decide

/-- C10: loading a bucket file returns the empty list when the file is
    absent, unparseable, or parses to a non-list JSON value, and a keyword
    iteration over a non-list bucket file behaves exactly as over an empty
    bucket. -/
theorem c10_nonlist_bucket (remote : Remote) (cfg : Config) :
    load_json_list (JsonFile.nonList : JsonFile Record) = [] ∧
    load_json_list (JsonFile.absent : JsonFile Record) = [] ∧
    load_json_list (JsonFile.corrupt : JsonFile Record) = [] ∧
    (∀ kw seen, runKeyword remote cfg kw JsonFile.nonList seen
      = runKeyword remote cfg kw (JsonFile.list []) seen) :=
  ⟨rfl, rfl, rfl, fun _ _ => rfl⟩

/-- C1 witness: a single collected post yields an appended record whose id
    is present and was not in the initially empty seen-id set. -/
theorem c1_dedup_appended_witness :
    ∃ s, (⟨"post", some "p", none, "s", "t", "b", "https://reddit.com/p", 1, some 100,
      "k"⟩ : Record).id = some s ∧ s ∉ ([] : List String) :=
  (c1_dedup_appended
    ⟨fun _ _ => FetchResult.ok [⟨"p", "s", "t", "b", "/p", 1, some 100⟩], fun _ => []⟩
    ⟨"results", 0, 1, false⟩ "k" JsonFile.absent []).2.2.1
    ⟨"post", some "p", none, "s", "t", "b", "https://reddit.com/p", 1, some 100, "k"⟩
    (by decide)

/-- C6 witness: the first character of the sanitized form of `C&P exam` is
    in the allowed class, and the sanitized form is non-empty. -/
theorem c6_sanitize_filename_witness :
    allowedChar 'C' = true ∧ sanitize_filename "C&P exam" 100 ≠ "" :=
  ⟨(c6_sanitize_filename "C&P exam").2.2.1 'C' (by decide),
   (c6_sanitize_filename "C&P exam").1⟩
